import Mathlib

/-!
Verification of the proxy-monitor extension (`src/extension/api.js`).

The repository file concatenates several revisions of the same extension.
We embed the revisions that the specification describes, keeping the
source's names:

* `V1` — the revision starting at line 1 (`applyFilter` at lines 79-137,
  `pruneProxyInfo` at 142-158, `tooManyFailures` at 172-179,
  `disableProxyInfo` at 211-233, `enableProxyInfo` at 235-241).
* `V2` — the revision starting at line 401 (`disableProxyInfo` with a
  failure count at 569-590, `enableProxyInfo` at 592-597, `handleEvent`
  at 599-617).
* `V3` — the revision starting at line 689 (`disableProxyInfo` with the
  `!this.disabledTime` guard at 996-1019).
* `V5` — the revision starting at line 1595 (`applyFilter` at 1721-1799).

Proxy-info objects form a mutable singly linked graph (`failoverProxy`
links are reassigned in place), so they are embedded as nodes of an
explicit heap: a list of records addressed by index, where allocating a
new object appends to the list.  JS `Map` objects are embedded as
association lists in insertion order.  Timestamps are integers
(milliseconds); `Math.round` on the real quotient is modelled exactly
with rational arithmetic.
-/

/-! ## Time: `hoursSince` (lines 25-29) -/

/-- JS `Math.round`: the closest integer, ties rounding toward `+∞`. -/
def jsRound (x : ℚ) : Int := Int.floor (x + 1/2)

/-- `const PROXY_DIRECT = "direct"` (line 19). -/
def PROXY_DIRECT : String := "direct"

/-- `const DISABLE_HOURS = 48` (line 20). -/
def DISABLE_HOURS : Nat := 48

/-- `const MAX_DISABLED_PI = 5` (line 21). -/
def MAX_DISABLED_PI : Nat := 5

/-- `function hoursSince(dt2, dt1 = Date.now())` (lines 25-29):
`diff = (dt2 - dt1) / 1000; diff /= 60 * 60; return Math.abs(Math.round(diff))`.
The default argument is made explicit: every caller passes the current time. -/
def hoursSince (dt2 : Int) (dt1 : Int) : Nat :=
  (jsRound (((dt2 : ℚ) - (dt1 : ℚ)) / 1000 / (60 * 60))).natAbs

theorem jsRound_le (x : ℚ) : (jsRound x : ℚ) ≤ x + 1/2 := Int.floor_le _

theorem lt_jsRound_add_one (x : ℚ) : x + 1/2 < jsRound x + 1 := Int.lt_floor_add_one _

/-- The value `Math.round((dt2-dt1)/3600000)` is characterised by the pair of
integer inequalities `7200000*q ≤ 2*(dt2-dt1) + 3600000 < 7200000*(q+1)`. -/
theorem hoursSince_bounds (dt2 dt1 : Int) :
    ∃ q : Int, hoursSince dt2 dt1 = q.natAbs ∧
      7200000 * q ≤ 2 * (dt2 - dt1) + 3600000 ∧
      2 * (dt2 - dt1) + 3600000 < 7200000 * (q + 1) := by
  refine ⟨jsRound (((dt2 : ℚ) - (dt1 : ℚ)) / 1000 / (60 * 60)), rfl, ?_, ?_⟩
  · have h := jsRound_le (((dt2 : ℚ) - (dt1 : ℚ)) / 1000 / (60 * 60))
    have h2 : (7200000 : ℚ) * jsRound (((dt2 : ℚ) - (dt1 : ℚ)) / 1000 / (60 * 60)) ≤
        2 * ((dt2 : ℚ) - (dt1 : ℚ)) + 3600000 := by
      calc (7200000 : ℚ) * jsRound (((dt2 : ℚ) - (dt1 : ℚ)) / 1000 / (60 * 60)) ≤
            7200000 * ((((dt2 : ℚ) - (dt1 : ℚ)) / 1000 / (60 * 60)) + 1/2) := by
            exact mul_le_mul_of_nonneg_left h (by norm_num)
        _ = 2 * ((dt2 : ℚ) - (dt1 : ℚ)) + 3600000 := by ring
    exact_mod_cast h2
  · have h := lt_jsRound_add_one (((dt2 : ℚ) - (dt1 : ℚ)) / 1000 / (60 * 60))
    have h2 : 2 * ((dt2 : ℚ) - (dt1 : ℚ)) + 3600000 <
        7200000 * (jsRound (((dt2 : ℚ) - (dt1 : ℚ)) / 1000 / (60 * 60)) + 1) := by
      calc 2 * ((dt2 : ℚ) - (dt1 : ℚ)) + 3600000
          = 7200000 * ((((dt2 : ℚ) - (dt1 : ℚ)) / 1000 / (60 * 60)) + 1/2) := by ring
        _ < 7200000 * (jsRound (((dt2 : ℚ) - (dt1 : ℚ)) / 1000 / (60 * 60)) + 1) := by
            exact mul_lt_mul_of_pos_left h (by norm_num)
    exact_mod_cast h2

/-- For a timestamp in the past, `hoursSince t now ≥ 48` holds exactly when
strictly more than 47.5 hours (`171000000` ms) have elapsed. -/
theorem hoursSince_ge_48_of_past {t now : Int} (h : t ≤ now) :
    DISABLE_HOURS ≤ hoursSince t now ↔ 171000000 < now - t := by
  obtain ⟨q, hq, h1, h2⟩ := hoursSince_bounds t now
  rw [hq]
  unfold DISABLE_HOURS
  omega

/-- For a timestamp in the future, `hoursSince t now ≥ 48` holds exactly when
the lead is at least 47.5 hours (`171000000` ms). -/
theorem hoursSince_ge_48_of_future {t now : Int} (h : now ≤ t) :
    DISABLE_HOURS ≤ hoursSince t now ↔ 171000000 ≤ t - now := by
  obtain ⟨q, hq, h1, h2⟩ := hoursSince_bounds t now
  rw [hq]
  unfold DISABLE_HOURS
  omega

theorem hoursSince_same (t : Int) : hoursSince t t = 0 := by
  obtain ⟨q, hq, h1, h2⟩ := hoursSince_bounds t t
  rw [hq]; omega

/-! ## JS `Map` objects, as association lists in insertion order

A JS `Map` never holds two entries with the same key, so looking up /
updating the first matching entry is an exact model of `Map.get` /
`Map.set` / `Map.delete`. -/

/-- `Map.get`. -/
def jsMapGet {α : Type} : List (String × α) → String → Option α
  | [], _ => none
  | kv :: rest, k => if kv.1 == k then some kv.2 else jsMapGet rest k

/-- `Map.set`: update in place if the key is present (keeping insertion
order), otherwise append. -/
def jsMapSet {α : Type} : List (String × α) → String → α → List (String × α)
  | [], k, v => [(k, v)]
  | kv :: rest, k, v => if kv.1 == k then (k, v) :: rest else kv :: jsMapSet rest k v

/-- `Map.delete`. -/
def jsMapDelete {α : Type} : List (String × α) → String → List (String × α)
  | [], _ => []
  | kv :: rest, k => if kv.1 == k then jsMapDelete rest k else kv :: jsMapDelete rest k

/-- `Map.has`. -/
def jsMapHas {α : Type} : List (String × α) → String → Bool
  | [], _ => false
  | kv :: rest, k => kv.1 == k || jsMapHas rest k

theorem jsMapGet_set_self {α : Type} (m : List (String × α)) (k : String) (v : α) :
    jsMapGet (jsMapSet m k v) k = some v := by
  induction m with
  | nil => simp [jsMapGet, jsMapSet]
  | cons kv rest ih =>
    by_cases h : kv.1 = k
    · simp [jsMapGet, jsMapSet, h]
    · have hb : (kv.1 == k) = false := by simpa using h
      simp [jsMapGet, jsMapSet, hb, ih]

theorem jsMapGet_set_ne {α : Type} (m : List (String × α)) (k k' : String) (v : α)
    (h : k' ≠ k) : jsMapGet (jsMapSet m k v) k' = jsMapGet m k' := by
  have hkk' : (k == k') = false := by simpa using fun e => h e.symm
  induction m with
  | nil => simp [jsMapGet, jsMapSet, hkk']
  | cons kv rest ih =>
    by_cases hb : kv.1 = k
    · have hb' : (kv.1 == k) = true := by simpa using hb
      have hne : (kv.1 == k') = false := by
        subst hb; simpa using fun e => h e.symm
      simp [jsMapGet, jsMapSet, hb', hne, hkk']
    · have hb' : (kv.1 == k) = false := by simpa using hb
      simp [jsMapGet, jsMapSet, hb', ih]

theorem jsMapGet_delete_self {α : Type} (m : List (String × α)) (k : String) :
    jsMapGet (jsMapDelete m k) k = none := by
  induction m with
  | nil => simp [jsMapGet, jsMapDelete]
  | cons kv rest ih =>
    by_cases h : kv.1 = k
    · have hb : (kv.1 == k) = true := by simpa using h
      simp [jsMapDelete, hb, ih]
    · have hb : (kv.1 == k) = false := by simpa using h
      simp [jsMapDelete, hb, jsMapGet, ih]

theorem jsMapGet_delete_ne {α : Type} (m : List (String × α)) (k k' : String)
    (h : k' ≠ k) : jsMapGet (jsMapDelete m k) k' = jsMapGet m k' := by
  induction m with
  | nil => simp [jsMapGet, jsMapDelete]
  | cons kv rest ih =>
    by_cases hb : kv.1 = k
    · have h1 : (kv.1 == k) = true := by simpa using hb
      have h2 : (kv.1 == k') = false := by
        subst hb; simpa using fun e => h e.symm
      simp [jsMapDelete, h1, jsMapGet, h2, ih]
    · have h1 : (kv.1 == k) = false := by simpa using hb
      simp [jsMapDelete, h1, jsMapGet, ih]

/-! ## The heap of `nsIProxyInfo` objects -/

/-- One `nsIProxyInfo` object: `{type, host, port, failoverProxy}`, where
`failoverProxy` is a reference to another heap node (or null). -/
structure PInfo where
  ptype : String
  host : String
  port : Nat
  failoverProxy : Option Nat
deriving Repr, DecidableEq

/-- The object heap: node `i` is `h[i]?`; allocation appends. -/
abbrev Heap := List PInfo

/-- The assignment `h[i].failoverProxy = f`. -/
def setFail (h : Heap) (i : Nat) (f : Option Nat) : Heap :=
  match h[i]? with
  | some p => h.set i { p with failoverProxy := f }
  | none => h

/-- The `failoverProxy` field of node `i` (none when dangling). -/
def linkAt (h : Heap) (i : Nat) : Option Nat :=
  match h[i]? with
  | some p => p.failoverProxy
  | none => none

/-- Read out the chain reachable from `start` by following `failoverProxy`
links (the loop `while (pi) { …; pi = pi.failoverProxy }`), fuel-bounded. -/
def chainIds (h : Heap) : Nat → Option Nat → List Nat
  | _, none => []
  | 0, some _ => []
  | fuel + 1, some i =>
    match h[i]? with
    | none => []
    | some p => i :: chainIds h fuel p.failoverProxy

/-- A proxy candidate as supplied by the external candidate provider. -/
structure Cand where
  ptype : String
  host : String
  port : Nat
deriving Repr, DecidableEq

/-- Build the heap for a default proxy chain given as a list of candidates:
node `i` holds candidate `i` and fails over to node `i+1`; the last node has
no failover.  The chain head is node `0`. -/
def mkHeap (cs : List Cand) : Heap :=
  (List.range cs.length).map (fun i =>
    match cs[i]? with
    | some c => ⟨c.ptype, c.host, c.port, if i + 1 < cs.length then some (i + 1) else none⟩
    | none => ⟨"", "", 0, none⟩)

theorem length_setFail (h : Heap) (i : Nat) (f : Option Nat) :
    (setFail h i f).length = h.length := by
  unfold setFail
  cases hp : h[i]? with
  | none => rfl
  | some p => simp

theorem getElem?_setFail_self (h : Heap) (i : Nat) (f : Option Nat) (p : PInfo)
    (hp : h[i]? = some p) : (setFail h i f)[i]? = some { p with failoverProxy := f } := by
  have hi : i < h.length := by
    by_contra hc
    rw [List.getElem?_eq_none (by omega)] at hp
    exact Option.noConfusion hp
  unfold setFail
  rw [hp]
  simp [List.getElem?_set_self, hi]

theorem getElem?_setFail_ne (h : Heap) (i j : Nat) (f : Option Nat) (hij : i ≠ j) :
    (setFail h i f)[j]? = h[j]? := by
  unfold setFail
  cases hp : h[i]? with
  | none => rfl
  | some p => exact List.getElem?_set_ne hij

theorem length_mkHeap (cs : List Cand) : (mkHeap cs).length = cs.length := by
  simp [mkHeap]

theorem getElem?_mkHeap (cs : List Cand) (i : Nat) (c : Cand) (hc : cs[i]? = some c) :
    (mkHeap cs)[i]? =
      some ⟨c.ptype, c.host, c.port, if i + 1 < cs.length then some (i + 1) else none⟩ := by
  have hi : i < cs.length := by
    by_contra hk
    rw [List.getElem?_eq_none (by omega)] at hc
    exact Option.noConfusion hc
  unfold mkHeap
  rw [List.getElem?_map, List.getElem?_range hi]
  simp [hc]

theorem getElem?_mkHeap_none (cs : List Cand) (i : Nat) (hi : cs.length ≤ i) :
    (mkHeap cs)[i]? = none := by
  apply List.getElem?_eq_none
  simpa [length_mkHeap]

/-! ## Revision `V1` (lines 1-399 of `src/extension/api.js`) -/

namespace V1

/-- An error-map entry `{ time: Date.now() }` (line 225). -/
structure ErrRec where
  time : Int
deriving Repr, DecidableEq

/-- The mutable fields of the `ProxyMonitor` singleton (lines 68-71) that
the health logic reads and writes: `errors` and `disabledTime`. -/
structure State where
  errors : List (String × ErrRec)
  disabledTime : Int
deriving Repr, DecidableEq

/-- `getProxyInfoKey(proxyInfo)` (lines 203-209). -/
def getProxyInfoKey (pinfo : Option PInfo) : Option String :=
  match pinfo with
  | none => none
  | some p =>
    if p.ptype == PROXY_DIRECT then none
    else some (p.ptype ++ ":" ++ p.host ++ ":" ++ toString p.port)

/-- `proxyDisabled(proxyInfo)` (lines 181-201).  Returns the updated state
(an expired record is evicted) together with the verdict. -/
def proxyDisabled (st : State) (now : Int) (p : PInfo) : State × Bool :=
  match getProxyInfoKey (some p) with
  | none => (st, false)
  | some key =>
    match jsMapGet st.errors key with
    | none => (st, false)
    | some err =>
      if DISABLE_HOURS ≤ hoursSince err.time now then
        ({ st with errors := jsMapDelete st.errors key }, false)
      else (st, true)

/-- `reset()` (lines 265-268). -/
def reset : State := { errors := [], disabledTime := 0 }

/-- `tooManyFailures()` (lines 172-179). -/
def tooManyFailures (st : State) (now : Int) : State × Bool :=
  let st1 := if st.disabledTime ≠ 0 ∧ DISABLE_HOURS ≤ hoursSince st.disabledTime now
             then reset else st
  (st1, st1.disabledTime != 0)

/-- The collection loop of `pruneProxyInfo` (lines 144-150):
`while (pi) { if (!this.proxyDisabled(pi)) enabledProxies.push(pi); pi = pi.failoverProxy }`,
fuel-bounded. -/
def collectEnabled (now : Int) (h : Heap) : Nat → Option Nat → State → State × List Nat
  | _, none, st => (st, [])
  | 0, some _, st => (st, [])
  | fuel + 1, some i, st =>
    match h[i]? with
    | none => (st, [])
    | some p =>
      let r1 := proxyDisabled st now p
      let r2 := collectEnabled now h fuel p.failoverProxy r1.1
      (r2.1, if r1.2 then r2.2 else i :: r2.2)

/-- The re-link loop of `pruneProxyInfo` (lines 154-156):
`for (let i = 0; i < enabledProxies.length - 2; i++)
   enabledProxies[i].failoverProxy = enabledProxies[i + 1];`
(note the source's loop bound `length - 2`). -/
def relinkLoop (h : Heap) (ids : List Nat) : Heap :=
  (List.range (ids.length - 2)).foldl
    (fun hh i =>
      match ids[i]?, ids[i + 1]? with
      | some a, some b => setFail hh a (some b)
      | _, _ => hh) h

/-- `pruneProxyInfo(proxyInfo)` (lines 142-158): collect the enabled
candidates, then re-link.  Returns the updated monitor state, the updated
heap, and the `enabledProxies` array (as node ids). -/
def pruneProxyInfo (st : State) (now : Int) (h : Heap) (head : Option Nat)
    (fuel : Nat) : State × Heap × List Nat :=
  let r := collectEnabled now h fuel head st
  (r.1, relinkLoop h r.2, r.2)

/-- `disableProxyInfo(proxyInfo)` (lines 211-233): evict expired entries,
record the failure (`{ time: Date.now() }`), and refresh `disabledTime`
whenever the registry is at or above `MAX_DISABLED_PI` — the assignment is
not guarded by a check that the breaker is still clear. -/
def disableProxyInfo (st : State) (pinfo : Option PInfo) (now : Int) : State :=
  match getProxyInfoKey pinfo with
  | none => st
  | some key =>
    let errors1 := st.errors.filter
      (fun kv => decide (hoursSince kv.2.time now < DISABLE_HOURS))
    let errors2 := jsMapSet errors1 key ⟨now⟩
    { errors := errors2,
      disabledTime := if MAX_DISABLED_PI ≤ errors2.length then now else st.disabledTime }

/-- `enableProxyInfo(proxyInfo)` (lines 235-241). -/
def enableProxyInfo (st : State) (pinfo : Option PInfo) : State :=
  match getProxyInfoKey pinfo with
  | none => st
  | some key =>
    if jsMapHas st.errors key then { st with errors := jsMapDelete st.errors key }
    else st

/-- `newDirectProxyInfo(failover)` (lines 73-77): allocate
`ProxyService.newProxyInfo("direct", "", 0, "", "", 0, 0, failover)`. -/
def newDirectProxyInfo (h : Heap) (failover : Option Nat) : Heap × Nat :=
  (h ++ [⟨PROXY_DIRECT, "", 0, failover⟩], h.length)

/-- The observable context of one `applyFilter` call: the local variable
`proxyInfo`, the monitor state, the heap, and the trace of arguments of the
calls made to `proxyFilter.onProxyFilterResult`. -/
structure FilterCtx where
  proxyInfo : Option Nat
  st : State
  heap : Heap
  trace : List (Option Nat)
deriving Repr, DecidableEq

/-- `proxyFilter.onProxyFilterResult(proxyInfo)`. -/
def onProxyFilterResult (c : FilterCtx) : FilterCtx :=
  { c with trace := c.trace ++ [c.proxyInfo] }

/-- JS `try { body } finally { fin }`: `fin` runs after a normal
completion, an early `return`, or a thrown exception (which is then
re-raised; the Boolean records it). -/
def tryFinallyJS (body : FilterCtx → FilterCtx × Bool) (fin : FilterCtx → FilterCtx)
    (c : FilterCtx) : FilterCtx × Bool :=
  let r := body c
  (fin r.1, r.2)

/-- The `try` block of `applyFilter` (lines 82-132).  `throwAt` is an
exception oracle: `some n` throws at checkpoint `n`, modelling an exception
raised at any statement while computing the decision; the Boolean result
records a propagating exception. -/
def applyFilterBody (isSystem : Bool) (defaultProxyInfo : Option Nat) (now : Int)
    (fuel : Nat) (throwAt : Option Nat) (c : FilterCtx) : FilterCtx × Bool :=
  match defaultProxyInfo with
  | none => (c, false)
  | some d =>
    if throwAt = some 0 then (c, true) else
    if isSystem = false then (c, false) else
    if throwAt = some 1 then (c, true) else
    let r1 := tooManyFailures c.st now
    let c1 := { c with st := r1.1 }
    if throwAt = some 2 then (c1, true) else
    if r1.2 then
      let a := newDirectProxyInfo c1.heap (some d)
      ({ c1 with heap := a.1, proxyInfo := some a.2 }, false)
    else
    if throwAt = some 3 then (c1, true) else
    let r2 := pruneProxyInfo c1.st now c1.heap (some d) fuel
    let c2 := { c1 with st := r2.1, heap := r2.2.1 }
    if throwAt = some 4 then (c2, true) else
    match r2.2.2 with
    | [] =>
      let a := newDirectProxyInfo c2.heap (some d)
      ({ c2 with heap := a.1, proxyInfo := some a.2 }, false)
    | i :: rest =>
      let c3 := { c2 with proxyInfo := some i }
      if throwAt = some 5 then (c3, true) else
      let lastFailover := rest.getLastD i
      match c3.heap[lastFailover]? with
      | none => (c3, false)
      | some p =>
        if p.failoverProxy.isSome || p.ptype != PROXY_DIRECT then
          let a := newDirectProxyInfo c3.heap none
          ({ c3 with heap := setFail a.1 lastFailover (some a.2) }, false)
        else (c3, false)

/-- `applyFilter(channel, defaultProxyInfo, proxyFilter)` (lines 79-137).
The channel is abstracted by `isSystem` (whether
`channel.loadInfo?.loadingPrincipal?.isSystemPrincipal` holds); the default
chain lives in the heap with its head node id in `defaultProxyInfo`. -/
def applyFilter (isSystem : Bool) (defaultProxyInfo : Option Nat) (now : Int)
    (fuel : Nat) (throwAt : Option Nat) (st : State) (h : Heap) : FilterCtx × Bool :=
  tryFinallyJS (applyFilterBody isSystem defaultProxyInfo now fuel throwAt)
    onProxyFilterResult
    { proxyInfo := defaultProxyInfo, st := st, heap := h, trace := [] }

end V1

example :
    (V1.applyFilter true (some 0) 0 3 none ⟨[], 0⟩
        (mkHeap [⟨"manual", "a", 1⟩, ⟨"manual", "b", 2⟩])).1.trace = [some 0] := by
  decide

example :
    chainIds
      (V1.applyFilter true (some 0) 0 3 none ⟨[], 0⟩
        (mkHeap [⟨"manual", "a", 1⟩, ⟨"manual", "b", 2⟩])).1.heap 4 (some 0)
      = [0, 1, 2] := by
  decide

/-! ## Chains that terminate in a bare direct candidate -/

/-- Does the chain from `start` terminate in a bare direct candidate — a
node of type `"direct"` with no `failoverProxy`?  (`false` also when the
fuel does not reach the end of the chain.) -/
def endsBareDirect (h : Heap) (fuel : Nat) (start : Option Nat) : Bool :=
  match (chainIds h fuel start).getLast? with
  | none => false
  | some i =>
    match h[i]? with
    | none => false
    | some p => p.ptype == PROXY_DIRECT && p.failoverProxy == none

theorem chainIds_start_none (h : Heap) (fuel : Nat) : chainIds h fuel none = [] := by
  cases fuel <;> rfl

theorem chainIds_zero (h : Heap) (start : Option Nat) : chainIds h 0 start = [] := by
  cases start <;> rfl

theorem linkAt_some (h : Heap) (i j : Nat) (hij : linkAt h i = some j) :
    ∃ p : PInfo, h[i]? = some p ∧ p.failoverProxy = some j := by
  unfold linkAt at hij
  cases hq : h[i]? with
  | none => rw [hq] at hij; exact absurd hij (by simp)
  | some p => rw [hq] at hij; exact ⟨p, rfl, hij⟩

theorem endsBareDirect_stop (h : Heap) (fuel : Nat) (i : Nat) (p : PInfo)
    (hp : h[i]? = some p) (hd : p.ptype = PROXY_DIRECT) (hf : p.failoverProxy = none) :
    endsBareDirect h (fuel + 1) (some i) = true := by
  simp [endsBareDirect, chainIds, hp, hf, hd, chainIds_start_none]

theorem endsBareDirect_step (h : Heap) (fuel : Nat) (i j : Nat) (p : PInfo)
    (hp : h[i]? = some p) (hf : p.failoverProxy = some j)
    (hj : endsBareDirect h fuel (some j) = true) :
    endsBareDirect h (fuel + 1) (some i) = true := by
  rw [endsBareDirect] at hj
  cases hL : chainIds h fuel (some j) with
  | nil => rw [hL] at hj; simp at hj
  | cons x xs =>
    rw [hL] at hj
    rw [endsBareDirect]
    have hc : chainIds h (fuel + 1) (some i) = i :: x :: xs := by
      simp only [chainIds, hp, hf, hL]
    rw [hc, List.getLast?_cons_cons]
    exact hj

theorem endsBareDirect_step' (h : Heap) (fuel : Nat) (i j : Nat)
    (hl : linkAt h i = some j)
    (hj : endsBareDirect h fuel (some j) = true) :
    endsBareDirect h (fuel + 1) (some i) = true := by
  obtain ⟨p, h1, h2⟩ := linkAt_some h i j hl
  exact endsBareDirect_step h fuel i j p h1 h2 hj

theorem endsBareDirect_mono (h : Heap) :
    ∀ fuel fuel' start, fuel ≤ fuel' → endsBareDirect h fuel start = true →
      endsBareDirect h fuel' start = true := by
  intro fuel
  induction fuel with
  | zero =>
    intro fuel' start _ hs
    rw [endsBareDirect, chainIds_zero] at hs
    simp at hs
  | succ fuel ih =>
    intro fuel' start hle hs
    cases start with
    | none => rw [endsBareDirect, chainIds_start_none] at hs; simp at hs
    | some i =>
      cases hp : h[i]? with
      | none =>
        rw [endsBareDirect, chainIds, hp] at hs
        simp at hs
      | some p =>
        cases hf : p.failoverProxy with
        | none =>
          obtain ⟨f2, hf2⟩ : ∃ f2, fuel' = f2 + 1 := ⟨fuel' - 1, by omega⟩
          subst hf2
          simp only [endsBareDirect, chainIds, hp, hf, chainIds_start_none] at hs
          simp only [endsBareDirect, chainIds, hp, hf, chainIds_start_none]
          simpa using hs
        | some j =>
          cases hL : chainIds h fuel (some j) with
          | nil =>
            have hfalse : endsBareDirect h (fuel + 1) (some i) = false := by
              unfold endsBareDirect
              have hc : chainIds h (fuel + 1) (some i) = [i] := by
                simp only [chainIds, hp, hf, hL]
              rw [hc]
              simp [hp, hf]
            rw [hfalse] at hs
            exact absurd hs (by simp)
          | cons x xs =>
            have heq : endsBareDirect h (fuel + 1) (some i) =
                endsBareDirect h fuel (some j) := by
              unfold endsBareDirect
              have hc : chainIds h (fuel + 1) (some i) = i :: x :: xs := by
                simp only [chainIds, hp, hf, hL]
              rw [hc, hL, List.getLast?_cons_cons]
            obtain ⟨f2, hf2⟩ : ∃ f2, fuel' = f2 + 1 := ⟨fuel' - 1, by omega⟩
            subst hf2
            exact endsBareDirect_step h f2 i j p hp hf
              (ih f2 (some j) (by omega) (heq ▸ hs))

/-- Walking down a run of consecutive nodes `j, j+1, …, j+c` whose links all
point to the next index. -/
theorem endsBareDirect_walk (h : Heap) :
    ∀ (c : Nat) (j : Nat) (fuel : Nat),
      (∀ l, j ≤ l → l < j + c → linkAt h l = some (l + 1)) →
      endsBareDirect h fuel (some (j + c)) = true →
      endsBareDirect h (c + fuel) (some j) = true := by
  intro c
  induction c with
  | zero => intro j fuel _ hj; simpa using hj
  | succ c ih =>
    intro j fuel hl hj
    have h0 : linkAt h j = some (j + 1) := hl j le_rfl (by omega)
    have hj' : endsBareDirect h (c + fuel) (some (j + 1)) = true := by
      apply ih (j + 1) fuel
      · intro l hl1 hl2; exact hl l (by omega) (by omega)
      · have he : j + (c + 1) = (j + 1) + c := by omega
        rw [he] at hj; exact hj
    have := endsBareDirect_step' h (c + fuel) j (j + 1) h0 hj'
    have he : (c + fuel) + 1 = (c + 1) + fuel := by omega
    rw [he] at this
    exact this

/-- Walking a list of nodes whose consecutive pairs are linked. -/
theorem endsBareDirect_chain (h : Heap) :
    ∀ (L : List Nat) (fuel : Nat) (a : Nat),
      List.Chain' (fun x y => linkAt h x = some y) (a :: L) →
      endsBareDirect h fuel (some (L.getLastD a)) = true →
      endsBareDirect h (L.length + fuel) (some a) = true := by
  intro L
  induction L with
  | nil => intro fuel a _ hj; simpa using hj
  | cons b L ih =>
    intro fuel a hchain hj
    rw [List.chain'_cons] at hchain
    have hj' : endsBareDirect h (L.length + fuel) (some b) = true := by
      apply ih fuel b hchain.2
      rw [List.getLastD_cons] at hj
      exact hj
    have := endsBareDirect_step' h (L.length + fuel) a b hchain.1 hj'
    have he : (L.length + fuel) + 1 = (b :: L).length + fuel := by simp; omega
    rw [he] at this
    exact this

/-! ## Structure of the re-linked heap -/

namespace V1

/-- The re-link loop as recursion over the array: while at least three
entries remain, link the first entry to the second.  These are the same
assignments, in the same order, as `relinkLoop` performs for indices
`0 … length-3`. -/
def relinkPairs (h : Heap) : List Nat → Heap
  | a :: b :: c :: rest => relinkPairs (setFail h a (some b)) (b :: c :: rest)
  | _ => h

theorem relinkLoop_eq_relinkPairs : ∀ (ids : List Nat) (h : Heap),
    relinkLoop h ids = relinkPairs h ids := by
  intro ids
  induction ids with
  | nil => intro h; rfl
  | cons a tail ih =>
    cases tail with
    | nil => intro h; rfl
    | cons b tail2 =>
      cases tail2 with
      | nil => intro h; rfl
      | cons c rest =>
        intro h
        unfold relinkLoop
        have hlen : (a :: b :: c :: rest).length - 2 = rest.length + 1 := by simp
        rw [hlen, List.range_succ_eq_map, List.foldl_cons, List.foldl_map]
        have hinit :
            (match (a :: b :: c :: rest)[0]?, (a :: b :: c :: rest)[0 + 1]? with
              | some x, some y => setFail h x (some y)
              | _, _ => h) = setFail h a (some b) := rfl
        rw [hinit]
        have hfun : ∀ (hh : Heap) (n : Nat), n ∈ List.range rest.length →
            (match (a :: b :: c :: rest)[Nat.succ n]?,
                   (a :: b :: c :: rest)[Nat.succ n + 1]? with
              | some x, some y => setFail hh x (some y)
              | _, _ => hh) =
            (match (b :: c :: rest)[n]?, (b :: c :: rest)[n + 1]? with
              | some x, some y => setFail hh x (some y)
              | _, _ => hh) := by
          intro hh n _
          simp only [Nat.succ_eq_add_one, List.getElem?_cons_succ]
        rw [List.foldl_ext _ _ (setFail h a (some b)) hfun]
        have hres := ih (setFail h a (some b))
        unfold relinkLoop at hres
        have hlen2 : (b :: c :: rest).length - 2 = rest.length := by simp
        rw [hlen2] at hres
        exact hres

theorem length_relinkPairs : ∀ (ids : List Nat) (h : Heap),
    (relinkPairs h ids).length = h.length := by
  intro ids
  induction ids with
  | nil => intro h; rfl
  | cons a tail ih =>
    cases tail with
    | nil => intro h; rfl
    | cons b tail2 =>
      cases tail2 with
      | nil => intro h; rfl
      | cons c rest =>
        intro h
        show (relinkPairs (setFail h a (some b)) (b :: c :: rest)).length = h.length
        rw [ih (setFail h a (some b)), length_setFail]

theorem getElem?_relinkPairs_of_ne : ∀ (ids : List Nat) (h : Heap) (j : Nat),
    (∀ x ∈ ids.dropLast.dropLast, x ≠ j) → (relinkPairs h ids)[j]? = h[j]? := by
  intro ids
  induction ids with
  | nil => intro h j _; rfl
  | cons a tail ih =>
    cases tail with
    | nil => intro h j _; rfl
    | cons b tail2 =>
      cases tail2 with
      | nil => intro h j _; rfl
      | cons c rest =>
        intro h j hx
        have hdl : (a :: b :: c :: rest).dropLast.dropLast =
            a :: (b :: c :: rest).dropLast.dropLast := by
          simp
        rw [hdl] at hx
        show (relinkPairs (setFail h a (some b)) (b :: c :: rest))[j]? = h[j]?
        rw [ih (setFail h a (some b)) j (fun x hmem => hx x (List.mem_cons_of_mem a hmem))]
        exact getElem?_setFail_ne h a j (some b) (hx a (List.mem_cons_self a _))

theorem linkAt_relinkPairs_of_ne (ids : List Nat) (h : Heap) (j : Nat)
    (hx : ∀ x ∈ ids.dropLast.dropLast, x ≠ j) :
    linkAt (relinkPairs h ids) j = linkAt h j := by
  unfold linkAt
  rw [getElem?_relinkPairs_of_ne ids h j hx]

theorem getElem?_relinkPairs_not_mem : ∀ (ids : List Nat) (h : Heap) (j : Nat),
    j ∉ ids → (relinkPairs h ids)[j]? = h[j]? := by
  intro ids h j hj
  apply getElem?_relinkPairs_of_ne
  intro x hxmem hxj
  subst hxj
  exact hj (List.Sublist.mem hxmem
    ((List.dropLast_sublist _).trans (List.dropLast_sublist _)))

theorem linkAt_setFail_self (h : Heap) (i : Nat) (f : Option Nat) (hi : i < h.length) :
    linkAt (setFail h i f) i = f := by
  have hp : h[i]? = some h[i] := List.getElem?_eq_getElem hi
  unfold linkAt
  rw [getElem?_setFail_self h i f h[i] hp]

theorem linkAt_setFail_ne (h : Heap) (i j : Nat) (f : Option Nat) (hij : i ≠ j) :
    linkAt (setFail h i f) j = linkAt h j := by
  unfold linkAt
  rw [getElem?_setFail_ne h i j f hij]

/-- After the re-link loop, the consecutive pairs of all but the last entry
of `enabledProxies` are linked. -/
theorem chain'_linkAt_relinkPairs : ∀ (ids : List Nat) (h : Heap),
    List.Chain' (· < ·) ids → (∀ x ∈ ids, x < h.length) →
    List.Chain' (fun x y => linkAt (relinkPairs h ids) x = some y) ids.dropLast := by
  intro ids
  induction ids with
  | nil => intro h _ _; simp
  | cons a tail ih =>
    cases tail with
    | nil => intro h _ _; simp
    | cons b tail2 =>
      cases tail2 with
      | nil => intro h _ _; simp
      | cons c rest =>
        intro h hc hbound
        have hmem : ∀ x ∈ (b :: c :: rest), a < x := by
          have hp := List.chain'_iff_pairwise.mp hc
          rw [List.pairwise_cons] at hp
          exact hp.1
        have hanot : a ∉ (b :: c :: rest) := fun hmem2 => absurd rfl (hmem a hmem2).ne'
        have hdl : (a :: b :: c :: rest).dropLast = a :: (b :: c :: rest).dropLast :=
          List.dropLast_cons₂
        rw [hdl]
        have hdl2 : (b :: c :: rest).dropLast = b :: (c :: rest).dropLast :=
          List.dropLast_cons₂
        show List.Chain' _ (a :: (b :: c :: rest).dropLast)
        rw [hdl2, List.chain'_cons]
        constructor
        · show linkAt (relinkPairs (setFail h a (some b)) (b :: c :: rest)) a = some b
          have h1 : (relinkPairs (setFail h a (some b)) (b :: c :: rest))[a]? =
              (setFail h a (some b))[a]? :=
            getElem?_relinkPairs_not_mem (b :: c :: rest) (setFail h a (some b)) a hanot
          have ha : a < h.length := hbound a (by simp)
          have hp : h[a]? = some h[a] := List.getElem?_eq_getElem ha
          unfold linkAt
          rw [h1, getElem?_setFail_self h a (some b) h[a] hp]
        · rw [← hdl2]
          have hchain2 : List.Chain' (· < ·) (b :: c :: rest) := hc.tail
          have hbound2 : ∀ x ∈ (b :: c :: rest), x < (setFail h a (some b)).length := by
            intro x hx
            rw [length_setFail]
            exact hbound x (by simp [hx])
          exact ih (setFail h a (some b)) hchain2 hbound2

end V1

namespace V1

theorem collectEnabled_none (now : Int) (h : Heap) (fuel : Nat) (st : State) :
    collectEnabled now h fuel none st = (st, []) := by
  cases fuel <;> rfl

theorem collectEnabled_zero (now : Int) (h : Heap) (start : Option Nat) (st : State) :
    collectEnabled now h 0 start st = (st, []) := by
  cases start <;> rfl

theorem collectEnabled_succ (now : Int) (h : Heap) (fuel : Nat) (i : Nat) (st : State) :
    collectEnabled now h (fuel + 1) (some i) st =
      match h[i]? with
      | none => (st, [])
      | some p =>
        let r1 := proxyDisabled st now p
        let r2 := collectEnabled now h fuel p.failoverProxy r1.1
        (r2.1, if r1.2 then r2.2 else i :: r2.2) := rfl

/-- Over a well-formed chain heap, the collection loop produces a strictly
increasing list of node indices in `[i, cs.length)`. -/
theorem collectEnabled_mkHeap_sorted (now : Int) (cs : List Cand) :
    ∀ (fuel : Nat) (i : Nat) (st : State),
      List.Chain' (· < ·) (collectEnabled now (mkHeap cs) fuel (some i) st).2 ∧
      ∀ x ∈ (collectEnabled now (mkHeap cs) fuel (some i) st).2,
        i ≤ x ∧ x < cs.length := by
  intro fuel
  induction fuel with
  | zero =>
    intro i st
    rw [collectEnabled_zero]
    exact ⟨List.chain'_nil, by intro x hx; simp at hx⟩
  | succ fuel ih =>
    intro i st
    by_cases hi : i < cs.length
    · have hc : cs[i]? = some cs[i] := List.getElem?_eq_getElem hi
      by_cases hnext : i + 1 < cs.length
      · have hm : (mkHeap cs)[i]? =
            some ⟨cs[i].ptype, cs[i].host, cs[i].port, some (i + 1)⟩ := by
          rw [getElem?_mkHeap cs i cs[i] hc]
          simp [hnext]
        rw [collectEnabled_succ, hm]
        simp only
        obtain ⟨ihc, ihb⟩ := ih (i + 1)
          (proxyDisabled st now ⟨cs[i].ptype, cs[i].host, cs[i].port, some (i + 1)⟩).1
        cases hd : (proxyDisabled st now
            ⟨cs[i].ptype, cs[i].host, cs[i].port, some (i + 1)⟩).2
        · simp only [hd, Bool.false_eq_true, if_false]
          constructor
          · rw [List.chain'_cons']
            refine ⟨?_, ihc⟩
            intro y hy
            have hmem : y ∈ (collectEnabled now (mkHeap cs) fuel (some (i + 1))
                (proxyDisabled st now
                  ⟨cs[i].ptype, cs[i].host, cs[i].port, some (i + 1)⟩).1).2 :=
              List.mem_of_mem_head? hy
            exact lt_of_lt_of_le (by omega) (ihb y hmem).1
          · intro x hx
            rcases List.mem_cons.mp hx with hx | hx
            · exact ⟨le_of_eq hx.symm, by omega⟩
            · exact ⟨by have := (ihb x hx).1; omega, (ihb x hx).2⟩
        · simp only [hd, if_true]
          refine ⟨ihc, ?_⟩
          intro x hx
          exact ⟨by have := (ihb x hx).1; omega, (ihb x hx).2⟩
      · have hm : (mkHeap cs)[i]? =
            some ⟨cs[i].ptype, cs[i].host, cs[i].port, none⟩ := by
          rw [getElem?_mkHeap cs i cs[i] hc]
          simp [hnext]
        rw [collectEnabled_succ, hm]
        simp only [collectEnabled_none]
        cases hd : (proxyDisabled st now
            ⟨cs[i].ptype, cs[i].host, cs[i].port, none⟩).2
        · simp only [hd, Bool.false_eq_true, if_false]
          exact ⟨by simp, by intro x hx; simp at hx; omega⟩
        · simp only [hd, if_true]
          exact ⟨List.chain'_nil, by intro x hx; simp at hx⟩
    · have hm : (mkHeap cs)[i]? = none := getElem?_mkHeap_none cs i (by omega)
      rw [collectEnabled_succ, hm]
      exact ⟨List.chain'_nil, by intro x hx; simp at hx⟩

end V1

/-! ## Auxiliary facts about strictly increasing index lists -/

theorem getLastD_mem : ∀ (L : List Nat) (a : Nat), L.getLastD a ∈ a :: L := by
  intro L
  induction L with
  | nil => intro a; simp
  | cons b L ih =>
    intro a
    rw [List.getLastD_cons]
    exact List.mem_cons_of_mem a (ih b)

theorem chain'_getLastD_ge : ∀ (M : List Nat) (a d : Nat),
    List.Chain' (· < ·) (a :: M) → a + M.length ≤ (a :: M).getLastD d := by
  intro M
  induction M with
  | nil => intro a d _; simp
  | cons b M ih =>
    intro a d hc
    rw [List.getLastD_cons]
    have hab : a < b := (List.chain'_cons.mp hc).1
    have := ih b a hc.tail
    simp only [List.length_cons]
    omega

theorem chain'_mem_dropLast_lt : ∀ (rest : List Nat) (i x : Nat),
    List.Chain' (· < ·) (i :: rest) → x ∈ (i :: rest).dropLast →
    x < rest.getLastD i := by
  intro rest
  induction rest with
  | nil => intro i x _ hx; simp at hx
  | cons r rest ih =>
    intro i x hc hx
    rw [List.dropLast_cons₂] at hx
    rw [List.getLastD_cons]
    rcases List.mem_cons.mp hx with hx | hx
    · subst hx
      have hir : x < r := (List.chain'_cons.mp hc).1
      have := chain'_getLastD_ge rest r x hc.tail
      rw [List.getLastD_cons] at this
      omega
    · have := ih r x hc.tail hx
      omega

theorem chain'_congr_linkAt (h h' : Heap) : ∀ (L : List Nat),
    (∀ x ∈ L, linkAt h' x = linkAt h x) →
    List.Chain' (fun x y => linkAt h x = some y) L →
    List.Chain' (fun x y => linkAt h' x = some y) L := by
  intro L
  induction L with
  | nil => intro _ _; exact List.chain'_nil
  | cons a M ih =>
    intro hagree hc
    cases M with
    | nil => simp
    | cons b M' =>
      rw [List.chain'_cons] at hc ⊢
      refine ⟨?_, ih (fun x hx => hagree x (List.mem_cons_of_mem a hx)) hc.2⟩
      rw [hagree a (List.mem_cons_self a _)]
      exact hc.1

namespace V1

/-- Running `applyFilter` without an exception while the breaker is
reporting too many failures: a fresh direct proxy-info is prepended, with
the original default chain as its failover. -/
theorem applyFilter_tripped_run (st : State) (now : Int) (h : Heap) (d : Nat)
    (fuel : Nat) (htm : (tooManyFailures st now).2 = true) :
    applyFilter true (some d) now fuel none st h =
      ({ proxyInfo := some h.length,
         st := (tooManyFailures st now).1,
         heap := h ++ [⟨PROXY_DIRECT, "", 0, some d⟩],
         trace := [some h.length] }, false) := by
  unfold applyFilter tryFinallyJS applyFilterBody
  simp [htm, newDirectProxyInfo, onProxyFilterResult]

/-- Running `applyFilter` without an exception on the pruning path, when
the last enabled candidate needs the direct fix-up. -/
theorem applyFilter_prune_run_fix (st : State) (now : Int) (h : Heap) (d : Nat)
    (fuel : Nat) (i : Nat) (rest : List Nat) (p : PInfo)
    (htm : (tooManyFailures st now).2 = false)
    (hids : (collectEnabled now h fuel (some d) (tooManyFailures st now).1).2
      = i :: rest)
    (hp : (relinkLoop h (i :: rest))[rest.getLastD i]? = some p)
    (hcond : (p.failoverProxy.isSome || p.ptype != PROXY_DIRECT) = true) :
    applyFilter true (some d) now fuel none st h =
      ({ proxyInfo := some i,
         st := (collectEnabled now h fuel (some d) (tooManyFailures st now).1).1,
         heap := setFail (relinkLoop h (i :: rest) ++ [⟨PROXY_DIRECT, "", 0, none⟩])
           (rest.getLastD i) (some (relinkLoop h (i :: rest)).length),
         trace := [some i] }, false) := by
  unfold applyFilter tryFinallyJS applyFilterBody
  simp only [List.getLastD_eq_getLast?] at hp
  simp [htm, pruneProxyInfo, hids, hp, newDirectProxyInfo, onProxyFilterResult,
    List.getLastD_eq_getLast?]
  split
  · simp
  · rename_i hno
    exfalso
    apply hno
    rcases (Bool.or_eq_true _ _).mp hcond with h1 | h1
    · exact Or.inl h1
    · exact Or.inr (by simpa using h1)

/-- Running `applyFilter` without an exception on the pruning path, when
the last enabled candidate is already a bare direct one: the heap is left
exactly as the pruning loop produced it. -/
theorem applyFilter_prune_run_nofix (st : State) (now : Int) (h : Heap) (d : Nat)
    (fuel : Nat) (i : Nat) (rest : List Nat) (p : PInfo)
    (htm : (tooManyFailures st now).2 = false)
    (hids : (collectEnabled now h fuel (some d) (tooManyFailures st now).1).2
      = i :: rest)
    (hp : (relinkLoop h (i :: rest))[rest.getLastD i]? = some p)
    (hcond : (p.failoverProxy.isSome || p.ptype != PROXY_DIRECT) = false) :
    applyFilter true (some d) now fuel none st h =
      ({ proxyInfo := some i,
         st := (collectEnabled now h fuel (some d) (tooManyFailures st now).1).1,
         heap := relinkLoop h (i :: rest),
         trace := [some i] }, false) := by
  unfold applyFilter tryFinallyJS applyFilterBody
  simp only [List.getLastD_eq_getLast?] at hp
  simp only [Bool.or_eq_false_iff] at hcond
  simp [htm, pruneProxyInfo, hids, hp, newDirectProxyInfo, onProxyFilterResult,
    List.getLastD_eq_getLast?]
  split
  · rename_i hyes
    exfalso
    rcases hyes with h1 | h1
    · rw [hcond.1] at h1; exact Bool.noConfusion h1
    · exact h1 (by simpa using hcond.2)
  · simp

end V1

/-- C8: for every default chain and health state, a result delivered through
the pruning path of `applyFilter` (breaker clear, at least one enabled
candidate) is a chain that terminates in a bare direct candidate with no
successor.  When the last enabled candidate is not a bare terminal direct
candidate, a synthetic direct candidate is appended as its successor
(lines 121-130); when it already is one, the fix-up step leaves the heap
untouched. -/
theorem c8_pruned_chain_ends_bare_direct
    (cs : List Cand) (st : V1.State) (now : Int) (i : Nat) (rest : List Nat)
    (htm : (V1.tooManyFailures st now).2 = false)
    (hids : (V1.collectEnabled now (mkHeap cs) cs.length (some 0)
        (V1.tooManyFailures st now).1).2 = i :: rest) :
    ((V1.applyFilter true (some 0) now cs.length none st (mkHeap cs)).1.trace
        = [some i]) ∧
    endsBareDirect
      (V1.applyFilter true (some 0) now cs.length none st (mkHeap cs)).1.heap
      (cs.length + 2) (some i) = true ∧
    (∀ p : PInfo,
      (V1.relinkLoop (mkHeap cs) (i :: rest))[rest.getLastD i]? = some p →
      p.failoverProxy = none → p.ptype = PROXY_DIRECT →
      (V1.applyFilter true (some 0) now cs.length none st (mkHeap cs)).1.heap
        = V1.relinkLoop (mkHeap cs) (i :: rest)) := by
  have hsorted := V1.collectEnabled_mkHeap_sorted now cs cs.length 0
      (V1.tooManyFailures st now).1
  rw [hids] at hsorted
  obtain ⟨hchain, hbound⟩ := hsorted
  have hbridge : V1.relinkLoop (mkHeap cs) (i :: rest)
      = V1.relinkPairs (mkHeap cs) (i :: rest) :=
    V1.relinkLoop_eq_relinkPairs _ _
  have hlenh2 : (V1.relinkLoop (mkHeap cs) (i :: rest)).length = cs.length := by
    rw [hbridge, V1.length_relinkPairs, length_mkHeap]
  have hlast_mem : rest.getLastD i ∈ i :: rest := getLastD_mem rest i
  have hlast_lt : rest.getLastD i < cs.length := (hbound _ hlast_mem).2
  have hdrop_lt : ∀ x ∈ (i :: rest).dropLast, x < rest.getLastD i :=
    fun x hx => chain'_mem_dropLast_lt rest i x hchain hx
  have hnotmod : ∀ x ∈ (i :: rest).dropLast.dropLast, x ≠ rest.getLastD i :=
    fun x hx =>
      (hdrop_lt x ((List.dropLast_sublist _).mem hx)).ne
  have hheapread : (V1.relinkLoop (mkHeap cs) (i :: rest))[rest.getLastD i]?
      = (mkHeap cs)[rest.getLastD i]? := by
    rw [hbridge]
    exact V1.getElem?_relinkPairs_of_ne _ _ _ hnotmod
  obtain ⟨pl, hpl⟩ : ∃ pl,
      (V1.relinkLoop (mkHeap cs) (i :: rest))[rest.getLastD i]? = some pl := by
    rw [hheapread,
      getElem?_mkHeap cs _ cs[rest.getLastD i] (List.getElem?_eq_getElem hlast_lt)]
    exact ⟨_, rfl⟩
  -- links strictly below the last survivor agree with the original chain
  have hlink2 : ∀ l, (∀ x ∈ (i :: rest).dropLast.dropLast, x ≠ l) →
      l + 1 < cs.length →
      linkAt (V1.relinkLoop (mkHeap cs) (i :: rest)) l = some (l + 1) := by
    intro l hxne hl1
    rw [hbridge, V1.linkAt_relinkPairs_of_ne _ _ _ hxne]
    unfold linkAt
    rw [getElem?_mkHeap cs l cs[l] (List.getElem?_eq_getElem (by omega))]
    simp [hl1]
  -- the generic assembly: from the resolution of the last survivor back to
  -- the delivered head
  have hfinal : ∀ h3 : Heap,
      (∀ l, l < rest.getLastD i → linkAt h3 l
        = linkAt (V1.relinkLoop (mkHeap cs) (i :: rest)) l) →
      endsBareDirect h3 2 (some (rest.getLastD i)) = true →
      endsBareDirect h3 (cs.length + 2) (some i) = true := by
    intro h3 hag hstart
    cases hr : rest with
    | nil =>
      have hlastr : rest.getLastD i = i := by rw [hr]; rfl
      rw [hlastr] at hstart
      exact endsBareDirect_mono h3 2 (cs.length + 2) (some i) (by omega) hstart
    | cons r rest' =>
      subst hr
      have hdl : (i :: r :: rest').dropLast = i :: (r :: rest').dropLast :=
        List.dropLast_cons₂
      -- the penultimate survivor
      set b := (r :: rest').dropLast.getLastD i with hbdef
      have hb_mem : b ∈ (i :: r :: rest').dropLast := by
        rw [hdl]
        exact getLastD_mem _ i
      have hb_lt_last : b < (r :: rest').getLastD i := hdrop_lt b hb_mem
      have hb_lt_n : b < cs.length :=
        (hbound b ((List.dropLast_sublist _).mem hb_mem)).2
      have hchain_dl : List.Chain' (· < ·) (i :: (r :: rest').dropLast) := by
        rw [← hdl]
        exact hchain.sublist (List.dropLast_sublist _)
      have hdd_lt' : ∀ x ∈ (i :: r :: rest').dropLast.dropLast, x < b := by
        intro x hx
        rw [hdl] at hx
        exact chain'_mem_dropLast_lt _ i x hchain_dl hx
      -- the run of original links from b up to the last survivor
      have hwalk : ∀ l, b ≤ l → l < (r :: rest').getLastD i →
          linkAt h3 l = some (l + 1) := by
        intro l hbl hllast
        rw [hag l hllast]
        apply hlink2 l
        · intro x hx
          exact (lt_of_lt_of_le (hdd_lt' x hx) hbl).ne
        · omega
      have hstep1 : endsBareDirect h3 (((r :: rest').getLastD i - b) + 2)
          (some b) = true := by
        have := endsBareDirect_walk h3 ((r :: rest').getLastD i - b) b 2
          (by intro l h1 h2; exact hwalk l h1 (by omega))
          (by rw [show b + ((r :: rest').getLastD i - b) = (r :: rest').getLastD i
                from by omega]
              exact hstart)
        exact this
      -- the re-linked prefix of survivors
      have hchain_h2 : List.Chain'
          (fun x y => linkAt (V1.relinkLoop (mkHeap cs) (i :: r :: rest')) x = some y)
          ((i :: r :: rest').dropLast) := by
        rw [hbridge]
        apply V1.chain'_linkAt_relinkPairs _ _ hchain
        intro x hx
        rw [length_mkHeap]
        exact (hbound x hx).2
      have hchain_h3 : List.Chain'
          (fun x y => linkAt h3 x = some y) (i :: (r :: rest').dropLast) := by
        rw [← hdl]
        apply chain'_congr_linkAt _ h3 _ _ (by rw [hdl] at hchain_h2 ⊢; exact hchain_h2)
        intro x hx
        exact hag x (hdrop_lt x hx)
      have hlen_le_b : (r :: rest').dropLast.length ≤ b := by
        have := chain'_getLastD_ge ((r :: rest').dropLast) i i hchain_dl
        rw [List.getLastD_cons] at this
        omega
      have hstep2 := endsBareDirect_chain h3 ((r :: rest').dropLast)
        (((r :: rest').getLastD i - b) + 2) i hchain_h3 hstep1
      apply endsBareDirect_mono h3 _ _ (some i) _ hstep2
      have : (r :: rest').getLastD i < cs.length := hlast_lt
      omega
  -- case split on the fix-up condition
  cases hc : (pl.failoverProxy.isSome || pl.ptype != PROXY_DIRECT) with
  | true =>
    have hrun := V1.applyFilter_prune_run_fix st now (mkHeap cs) 0 cs.length i rest pl
      htm hids hpl hc
    rw [hrun]
    set h2 := V1.relinkLoop (mkHeap cs) (i :: rest) with hh2
    set hfix := setFail (h2 ++ [(⟨PROXY_DIRECT, "", 0, none⟩ : PInfo)])
      (rest.getLastD i) (some h2.length) with hhfix
    refine ⟨rfl, ?_, ?_⟩
    · -- the delivered chain ends at the appended synthetic direct candidate
      have hfresh : hfix[h2.length]? = some ⟨PROXY_DIRECT, "", 0, none⟩ := by
        rw [hhfix, getElem?_setFail_ne _ _ _ _ (by omega)]
        exact List.getElem?_concat_length _ _
      have hlastread : hfix[rest.getLastD i]?
          = some { pl with failoverProxy := some h2.length } := by
        rw [hhfix]
        apply getElem?_setFail_self
        rw [List.getElem?_append_left (by omega)]
        exact hpl
      have h1 : endsBareDirect hfix 1 (some h2.length) = true :=
        endsBareDirect_stop hfix 0 h2.length ⟨PROXY_DIRECT, "", 0, none⟩ hfresh rfl rfl
      have hstep : endsBareDirect hfix 2 (some (rest.getLastD i)) = true :=
        endsBareDirect_step hfix 1 (rest.getLastD i) h2.length
          { pl with failoverProxy := some h2.length } hlastread rfl h1
      apply hfinal hfix ?_ hstep
      intro l hl
      rw [hhfix, V1.linkAt_setFail_ne _ _ _ _ (by omega)]
      unfold linkAt
      rw [List.getElem?_append_left (by omega)]
    · -- the untouched case cannot apply here
      intro p hp hnone hdirect
      rw [hpl] at hp
      cases hp
      rw [hnone, hdirect] at hc
      simp [PROXY_DIRECT] at hc
  | false =>
    have hrun := V1.applyFilter_prune_run_nofix st now (mkHeap cs) 0 cs.length i rest pl
      htm hids hpl hc
    rw [hrun]
    obtain ⟨hnone, hdirect⟩ : pl.failoverProxy = none ∧ pl.ptype = PROXY_DIRECT := by
      simp only [Bool.or_eq_false_iff] at hc
      exact ⟨by simpa using hc.1, by simpa using hc.2⟩
    refine ⟨rfl, ?_, fun _ _ _ _ => rfl⟩
    apply hfinal
    · intro l _; rfl
    · exact endsBareDirect_stop _ 1 _ pl hpl hdirect hnone


/-- Witness for `c8_pruned_chain_ends_bare_direct`: the chain
`manual a:1 → manual b:2` (no terminal direct) with a clear breaker and an
empty registry is delivered as `a → b → direct`, ending in a bare direct
candidate. -/
theorem c8_pruned_chain_ends_bare_direct_witness :
    ((V1.tooManyFailures ⟨[], 0⟩ 0).2 = false) ∧
    ((V1.collectEnabled 0 (mkHeap [⟨"manual", "a", 1⟩, ⟨"manual", "b", 2⟩]) 2 (some 0)
        (V1.tooManyFailures ⟨[], 0⟩ 0).1).2 = [0, 1]) ∧
    endsBareDirect
      (V1.applyFilter true (some 0) 0 2 none ⟨[], 0⟩
        (mkHeap [⟨"manual", "a", 1⟩, ⟨"manual", "b", 2⟩])).1.heap
      4 (some 0) = true :=
  ⟨by decide, by decide,
    (c8_pruned_chain_ends_bare_direct [⟨"manual", "a", 1⟩, ⟨"manual", "b", 2⟩]
      ⟨[], 0⟩ 0 0 [1] (by decide) (by decide)).2.1⟩

namespace V1

/-- The `try` block of `applyFilter` never invokes the decision consumer:
on every path — early return, normal completion, or a thrown exception —
the call trace is left unchanged. -/
theorem applyFilterBody_trace (isSystem : Bool) (dpi : Option Nat) (now : Int)
    (fuel : Nat) (throwAt : Option Nat) (c : FilterCtx) :
    ((applyFilterBody isSystem dpi now fuel throwAt c).1).trace = c.trace := by
  unfold applyFilterBody
  cases dpi with
  | none => rfl
  | some d =>
    dsimp only
    repeat' split
    all_goals rfl

end V1

/-! ## Revision `V2` (lines 401-687 of `src/extension/api.js`) -/

namespace V2

/-- `const directProxy = ["direct"]` (line 413). -/
def directProxy : List String := ["direct"]

/-- `const MAX_DISABLED_PI = 10` (line 415). -/
def MAX_DISABLED_PI : Nat := 10

/-- `const MAX_DIRECT_FAILURES = 20` (line 416). -/
def MAX_DIRECT_FAILURES : Int := 20

/-- An error-map entry `{ count, time }` (lines 575-581). -/
structure ErrRec where
  count : Int
  time : Int
deriving Repr, DecidableEq

/-- The mutable fields of the `ProxyMonitor` singleton (lines 444-448):
`errors`, `disabledTime` and `directFailures`. -/
structure State where
  errors : List (String × ErrRec)
  disabledTime : Int
  directFailures : Int
deriving Repr, DecidableEq

/-- `getProxyInfoKey(proxyInfo)` (lines 559-567). -/
def getProxyInfoKey (pinfo : Option PInfo) : Option String :=
  match pinfo with
  | none => none
  | some p =>
    if directProxy.contains p.ptype then none
    else some (p.ptype ++ ":" ++ p.host ++ ":" ++ toString p.port)

/-- `disableProxyInfo(proxyInfo)` (lines 569-590): a key-less (direct)
candidate increments `directFailures` and leaves the registry alone;
otherwise the error record for the key is inserted or updated with `count`
incremented and `time = Date.now()`, and `disabledTime` is set whenever the
registry size is at or above `MAX_DISABLED_PI`. -/
def disableProxyInfo (st : State) (pinfo : Option PInfo) (now : Int) : State :=
  match getProxyInfoKey pinfo with
  | none => { st with directFailures := st.directFailures + 1 }
  | some key =>
    let err : ErrRec :=
      match jsMapGet st.errors key with
      | some e => { count := e.count + 1, time := now }
      | none => { count := 1, time := now }
    let errors2 := jsMapSet st.errors key err
    if MAX_DISABLED_PI ≤ errors2.length then
      { st with errors := errors2, disabledTime := now }
    else { st with errors := errors2 }

/-- `enableProxyInfo(proxyInfo)` (lines 592-597). -/
def enableProxyInfo (st : State) (pinfo : Option PInfo) : State :=
  match getProxyInfoKey pinfo with
  | none => st
  | some key =>
    if jsMapHas st.errors key then { st with errors := jsMapDelete st.errors key }
    else st

/-- One channel event as seen by `handleEvent` (lines 599-617): its type,
whether the channel is an `nsIProxiedChannel`, the proxy info in effect
(null possible), and the response status code. -/
structure Event where
  etype : String
  isProxiedChannel : Bool
  proxyInfo : Option PInfo
  statusCode : Int
deriving Repr, DecidableEq

/-- `handleEvent(event)` (lines 599-617). -/
def handleEvent (st : State) (ev : Event) (now : Int) : State :=
  if ¬ ev.isProxiedChannel ∨ ev.proxyInfo = none then st
  else if ev.etype == "error" then disableProxyInfo st ev.proxyInfo now
  else if ev.etype == "stop" then
    if 200 ≤ ev.statusCode ∧ ev.statusCode < 400 then enableProxyInfo st ev.proxyInfo
    else st
  else st

/-- `reset()` (lines 619-623). -/
def reset : State := { errors := [], disabledTime := 0, directFailures := 0 }

end V2

/-! ## Revision `V3` (lines 689-1225 of `src/extension/api.js`)

This revision's state, `getProxyInfoKey` (lines 925-931), `tooManyFailures`
(892-900) and `MAX_DISABLED_PI = 5` (line 734) coincide with `V1`; its
`disableProxyInfo` differs in guarding the trip assignment. -/

namespace V3

/-- `disableProxyInfo(proxyInfo)` (lines 996-1019): like
`V1.disableProxyInfo`, but the trip is guarded —
`if (!this.disabledTime && this.errors.size >= MAX_DISABLED_PI)`.  The
telemetry calls (`logProxySource`, `recordEvent`) do not touch this state
and are omitted. -/
def disableProxyInfo (st : V1.State) (pinfo : Option PInfo) (now : Int) : V1.State :=
  match V1.getProxyInfoKey pinfo with
  | none => st
  | some key =>
    let errors1 := st.errors.filter
      (fun kv => decide (hoursSince kv.2.time now < DISABLE_HOURS))
    let errors2 := jsMapSet errors1 key ⟨now⟩
    { errors := errors2,
      disabledTime :=
        if st.disabledTime = 0 ∧ MAX_DISABLED_PI ≤ errors2.length then now
        else st.disabledTime }

end V3

/-! ## Revision `V5` (lines 1595-2054 of `src/extension/api.js`) -/

namespace V5

/-- `const MAX_DIRECT_FAILURES = 5` (line 1618). -/
def MAX_DIRECT_FAILURES : Int := 5

/-- The mutable fields of the `ProxyMonitor` singleton (lines 1715-1719):
`errors` (entries `{ time }`, line 1882), `disabledTime`,
`directFailures`. -/
structure State where
  errors : List (String × V1.ErrRec)
  disabledTime : Int
  directFailures : Int
deriving Repr, DecidableEq

/-- `proxyDisabled(proxyInfo)` (lines 1843-1863); the same text as
`V1.proxyDisabled`, over this revision's state.  `getProxyInfoKey`
(lines 1865-1871) is identical to `V1`'s. -/
def proxyDisabled (st : State) (now : Int) (p : PInfo) : State × Bool :=
  match V1.getProxyInfoKey (some p) with
  | none => (st, false)
  | some key =>
    match jsMapGet st.errors key with
    | none => (st, false)
    | some err =>
      if DISABLE_HOURS ≤ hoursSince err.time now then
        ({ st with errors := jsMapDelete st.errors key }, false)
      else (st, true)

/-- `reset()` (lines 1922-1926). -/
def reset : State := { errors := [], disabledTime := 0, directFailures := 0 }

/-- `tooManyFailures()` (lines 1834-1841). -/
def tooManyFailures (st : State) (now : Int) : State × Bool :=
  let st1 := if st.disabledTime ≠ 0 ∧ DISABLE_HOURS ≤ hoursSince st.disabledTime now
             then reset else st
  (st1, st1.disabledTime != 0)

/-- The collection loop of `pruneProxyInfo` (lines 1804-1820; the same text
as `V1.pruneProxyInfo`). -/
def collectEnabled (now : Int) (h : Heap) : Nat → Option Nat → State → State × List Nat
  | _, none, st => (st, [])
  | 0, some _, st => (st, [])
  | fuel + 1, some i, st =>
    match h[i]? with
    | none => (st, [])
    | some p =>
      let r1 := proxyDisabled st now p
      let r2 := collectEnabled now h fuel p.failoverProxy r1.1
      (r2.1, if r1.2 then r2.2 else i :: r2.2)

/-- `pruneProxyInfo(proxyInfo)` (lines 1804-1820), re-using `relinkLoop`
since the re-link loop is the same text as `V1`'s (lines 1816-1818). -/
def pruneProxyInfo (st : State) (now : Int) (h : Heap) (head : Option Nat)
    (fuel : Nat) : State × Heap × List Nat :=
  let r := collectEnabled now h fuel head st
  (r.1, V1.relinkLoop h r.2, r.2)

/-- The observable context of one `applyFilter` call in this revision. -/
structure FilterCtx where
  proxyInfo : Option Nat
  st : State
  heap : Heap
  trace : List (Option Nat)
deriving Repr, DecidableEq

/-- `proxyFilter.onProxyFilterResult(proxyInfo)`. -/
def onProxyFilterResult (c : FilterCtx) : FilterCtx :=
  { c with trace := c.trace ++ [c.proxyInfo] }

/-- JS `try { body } finally { fin }` for this revision's context type. -/
def tryFinallyJS (body : FilterCtx → FilterCtx × Bool) (fin : FilterCtx → FilterCtx)
    (c : FilterCtx) : FilterCtx × Bool :=
  let r := body c
  (fin r.1, r.2)

/-- The `try` block of `applyFilter` (lines 1724-1794).  `isSystem`
abstracts the `beConservative` / system-principal test (lines 1731-1736),
`contentError` the result of `ContentMonitor.checkErrors(wrapper.finalURL)`
(line 1758), and `throwAt` is the exception oracle. -/
def applyFilterBody (isSystem : Bool) (defaultProxyInfo : Option Nat)
    (contentError : Bool) (now : Int) (fuel : Nat) (throwAt : Option Nat)
    (c : FilterCtx) : FilterCtx × Bool :=
  match defaultProxyInfo with
  | none => (c, false)
  | some d =>
    if throwAt = some 0 then (c, true) else
    if isSystem = false then (c, false) else
    if throwAt = some 1 then (c, true) else
    if MAX_DIRECT_FAILURES < c.st.directFailures ∧ c.st.errors.length ≠ 0 then
      ({ c with st := { c.st with directFailures := 0 } }, false)
    else
    if throwAt = some 2 then (c, true) else
    if contentError then ({ c with proxyInfo := none }, false) else
    if throwAt = some 3 then (c, true) else
    let r1 := tooManyFailures c.st now
    let c1 := { c with st := r1.1 }
    if throwAt = some 4 then (c1, true) else
    if r1.2 then ({ c1 with proxyInfo := none }, false) else
    if throwAt = some 5 then (c1, true) else
    let r2 := pruneProxyInfo c1.st now c1.heap (some d) fuel
    let c2 := { c1 with st := r2.1, heap := r2.2.1 }
    if throwAt = some 6 then (c2, true) else
    match r2.2.2 with
    | [] => ({ c2 with proxyInfo := none }, false)
    | i :: rest =>
      let c3 := { c2 with proxyInfo := some i }
      if throwAt = some 7 then (c3, true) else
      let lastFailover := rest.getLastD i
      match c3.heap[lastFailover]? with
      | none => (c3, false)
      | some p =>
        if p.failoverProxy.isSome || p.ptype != PROXY_DIRECT then
          ({ c3 with
              heap := setFail (c3.heap ++ [⟨PROXY_DIRECT, "", 0, none⟩])
                lastFailover (some c3.heap.length) }, false)
        else (c3, false)

/-- `applyFilter(channel, defaultProxyInfo, proxyFilter)` (lines 1721-1799). -/
def applyFilter (isSystem : Bool) (defaultProxyInfo : Option Nat)
    (contentError : Bool) (now : Int) (fuel : Nat) (throwAt : Option Nat)
    (st : State) (h : Heap) : FilterCtx × Bool :=
  tryFinallyJS (applyFilterBody isSystem defaultProxyInfo contentError now fuel throwAt)
    onProxyFilterResult
    { proxyInfo := defaultProxyInfo, st := st, heap := h, trace := [] }

/-- Like `V1.applyFilterBody_trace`: the `try` block never invokes the
decision consumer. -/
theorem applyFilterBody_trace_v5 (isSystem : Bool) (dpi : Option Nat)
    (contentError : Bool) (now : Int) (fuel : Nat) (throwAt : Option Nat)
    (c : FilterCtx) :
    ((applyFilterBody isSystem dpi contentError now fuel throwAt c).1).trace
      = c.trace := by
  unfold applyFilterBody
  cases dpi with
  | none => rfl
  | some d =>
    dsimp only
    generalize (pruneProxyInfo (tooManyFailures c.st now).1 now c.heap (some d) fuel) = r2
    generalize (tooManyFailures c.st now) = r1
    rcases r2 with ⟨st2, h2, ids⟩
    cases ids with
    | nil =>
      simp only [apply_ite (fun r : FilterCtx × Bool => r.1.trace)]
      simp [ite_self]
    | cons i rest =>
      cases hp : h2[rest.getLastD i]? with
      | none =>
        rw [List.getLastD_eq_getLast?] at hp
        simp only [apply_ite (fun r : FilterCtx × Bool => r.1.trace)]
        simp [hp, ite_self]
      | some p =>
        rw [List.getLastD_eq_getLast?] at hp
        simp only [apply_ite (fun r : FilterCtx × Bool => r.1.trace)]
        simp [hp, ite_self]
        intros
        split <;> rfl

end V5

/-! ## The claims -/

/-- C1: `applyFilter` invokes the decision consumer
(`proxyFilter.onProxyFilterResult`) exactly once per request, on every exit
path — early return, normal completion, or an exception raised at any
statement while computing the decision — in both revisions that implement
it (lines 79-137 and 1721-1799): the call is made in the `finally` block
and nowhere else. -/
theorem c1_consumer_invoked_exactly_once :
    (∀ (isSystem : Bool) (dpi : Option Nat) (now : Int) (fuel : Nat)
       (throwAt : Option Nat) (st : V1.State) (h : Heap),
      ((V1.applyFilter isSystem dpi now fuel throwAt st h).1).trace.length = 1) ∧
    (∀ (isSystem contentError : Bool) (dpi : Option Nat) (now : Int) (fuel : Nat)
       (throwAt : Option Nat) (st : V5.State) (h : Heap),
      ((V5.applyFilter isSystem dpi contentError now fuel throwAt st h).1).trace.length
        = 1) := by
  constructor
  · intro isSystem dpi now fuel throwAt st h
    unfold V1.applyFilter V1.tryFinallyJS
    simp [V1.onProxyFilterResult, V1.applyFilterBody_trace]
  · intro isSystem contentError dpi now fuel throwAt st h
    unfold V5.applyFilter V5.tryFinallyJS
    simp [V5.onProxyFilterResult, V5.applyFilterBody_trace_v5]

/-- Witness for `c1_consumer_invoked_exactly_once` at a concrete request:
an exception at checkpoint 2 still yields exactly one consumer call. -/
theorem c1_consumer_invoked_exactly_once_witness :
    ((V1.applyFilter true (some 0) 0 2 (some 2) ⟨[], 0⟩
        (mkHeap [⟨"manual", "a", 1⟩])).1).trace.length = 1 :=
  c1_consumer_invoked_exactly_once.1 true (some 0) 0 2 (some 2) ⟨[], 0⟩
    (mkHeap [⟨"manual", "a", 1⟩])

/-- C2 (code bug): pruning the chain `manual a:1 → manual b:1 → direct`
with `manual:b:1` freshly failed collects the survivors `[0, 2]`
(`A` and the direct terminal `C`), but the re-link loop
`for (i = 0; i < enabledProxies.length - 2; i++)` (line 154) performs no
assignment for two survivors, so the heap is unchanged and the chain
starting at `survivors[0]` is still `A → B → C`: the disabled candidate
`B` remains reachable, contradicting
`survivors[i].successor = survivors[i+1]` for all but the last survivor. -/
theorem c2_relink_loop_off_by_one :
    (V1.pruneProxyInfo ⟨[("manual:b:1", ⟨0⟩)], 0⟩ 0
        (mkHeap [⟨"manual", "a", 1⟩, ⟨"manual", "b", 1⟩, ⟨"direct", "", 0⟩])
        (some 0) 3).2.2 = [0, 2] ∧
    (V1.pruneProxyInfo ⟨[("manual:b:1", ⟨0⟩)], 0⟩ 0
        (mkHeap [⟨"manual", "a", 1⟩, ⟨"manual", "b", 1⟩, ⟨"direct", "", 0⟩])
        (some 0) 3).2.1
      = mkHeap [⟨"manual", "a", 1⟩, ⟨"manual", "b", 1⟩, ⟨"direct", "", 0⟩] ∧
    chainIds
      (V1.pruneProxyInfo ⟨[("manual:b:1", ⟨0⟩)], 0⟩ 0
        (mkHeap [⟨"manual", "a", 1⟩, ⟨"manual", "b", 1⟩, ⟨"direct", "", 0⟩])
        (some 0) 3).2.1 4 (some 0) = [0, 1, 2] := by
  have h0 : hoursSince 0 0 = 0 := hoursSince_same 0
  refine ⟨?_, ?_, ?_⟩ <;>
    simp [V1.pruneProxyInfo, V1.collectEnabled, V1.proxyDisabled, V1.getProxyInfoKey,
      V1.relinkLoop, jsMapGet, jsMapDelete, h0, chainIds, mkHeap, DISABLE_HOURS,
      PROXY_DIRECT, List.range_succ, show toString (1 : Nat) = "1" from rfl,
      show toString (0 : Nat) = "0" from rfl]

/-- C3 (counterexample): with `disabledTime = 100` already set and five
recent failures registered, a further failure of an already-registered key
at time 200 refreshes `disabledTime` to 200 (line 230-232): the trip time
is not left unchanged while the breaker is tripped, so the recovery window
is extended. -/
theorem c3_counterexample :
    (V1.disableProxyInfo
        ⟨[("manual:p1:1", ⟨200⟩), ("manual:p2:1", ⟨200⟩), ("manual:p3:1", ⟨200⟩),
          ("manual:p4:1", ⟨200⟩), ("manual:p5:1", ⟨200⟩)], 100⟩
        (some ⟨"manual", "p1", 1, none⟩) 200).disabledTime = 200 ∧
    (200 : Int) ≠ 100 := by
  have h0 : hoursSince 200 200 = 0 := hoursSince_same 200
  constructor
  · simp [V1.disableProxyInfo, V1.getProxyInfoKey, jsMapSet, h0, DISABLE_HOURS,
      MAX_DISABLED_PI, PROXY_DIRECT, show toString (1 : Nat) = "1" from rfl]
  · decide

/-- C3 (amended): in the guarded revision (lines 996-1019) a failure
recorded while the breaker is already tripped leaves `disabledTime`
unchanged, and a keyed failure that brings the registry to the threshold
while the breaker is clear sets `disabledTime` to the current time; in the
unguarded revision (lines 211-233) any keyed failure that leaves the
registry at or above the threshold refreshes `disabledTime` to the current
time, extending the window. -/
theorem c3_trip_time_guarded_vs_unguarded :
    (∀ (st : V1.State) (pinfo : Option PInfo) (now : Int),
      st.disabledTime ≠ 0 →
      (V3.disableProxyInfo st pinfo now).disabledTime = st.disabledTime) ∧
    (∀ (st : V1.State) (pinfo : Option PInfo) (now : Int) (k : String),
      V1.getProxyInfoKey pinfo = some k → st.disabledTime = 0 →
      MAX_DISABLED_PI ≤ (V3.disableProxyInfo st pinfo now).errors.length →
      (V3.disableProxyInfo st pinfo now).disabledTime = now) ∧
    (∀ (st : V1.State) (pinfo : Option PInfo) (now : Int) (k : String),
      V1.getProxyInfoKey pinfo = some k →
      MAX_DISABLED_PI ≤ (V1.disableProxyInfo st pinfo now).errors.length →
      (V1.disableProxyInfo st pinfo now).disabledTime = now) := by
  refine ⟨?_, ?_, ?_⟩
  · intro st pinfo now hdt
    unfold V3.disableProxyInfo
    cases hk : V1.getProxyInfoKey pinfo with
    | none => rfl
    | some key =>
      dsimp only
      rw [if_neg (fun hc => hdt hc.1)]
  · intro st pinfo now k hk h0 hlen
    unfold V3.disableProxyInfo at hlen ⊢
    rw [hk] at hlen ⊢
    dsimp only at hlen ⊢
    rw [if_pos ⟨h0, hlen⟩]
  · intro st pinfo now k hk hlen
    unfold V1.disableProxyInfo at hlen ⊢
    rw [hk] at hlen ⊢
    dsimp only at hlen ⊢
    rw [if_pos hlen]

/-- Witness for `c3_trip_time_guarded_vs_unguarded`: a direct failure at
time 7 while tripped at time 5 leaves the trip time at 5 in the guarded
revision. -/
theorem c3_trip_time_guarded_vs_unguarded_witness :
    ((5 : Int) ≠ 0) ∧ (V3.disableProxyInfo ⟨[], 5⟩ none 7).disabledTime = 5 :=
  ⟨by decide, c3_trip_time_guarded_vs_unguarded.1 ⟨[], 5⟩ none 7 (by decide)⟩

theorem jsMapGet_eq_none_of_has_false {α : Type} (m : List (String × α)) (k : String)
    (h : jsMapHas m k = false) : jsMapGet m k = none := by
  induction m with
  | nil => rfl
  | cons kv rest ih =>
    unfold jsMapHas at h
    rw [Bool.or_eq_false_iff] at h
    simp only [jsMapGet, h.1, Bool.false_eq_true, if_false]
    exact ih h.2

/-- C4 (counterexample): while the global breaker is tripped
(`disabledTime = 1`, window not expired at `now = 1`), a system request
with the fully healthy one-candidate chain `manual p:1` is answered with a
freshly prepended direct candidate whose failover is the original chain:
the delivered chain is `direct → manual p:1`, so the result is not free of
proxy candidates. -/
theorem c4_counterexample :
    (V1.applyFilter true (some 0) 1 2 none ⟨[], 1⟩
        (mkHeap [⟨"manual", "p", 1⟩])).1.trace = [some 1] ∧
    chainIds (V1.applyFilter true (some 0) 1 2 none ⟨[], 1⟩
        (mkHeap [⟨"manual", "p", 1⟩])).1.heap 3 (some 1) = [1, 0] ∧
    ((V1.applyFilter true (some 0) 1 2 none ⟨[], 1⟩
        (mkHeap [⟨"manual", "p", 1⟩])).1.heap[0]?).map PInfo.ptype
      = some "manual" := by
  have hcond : ¬ (((⟨[], 1⟩ : V1.State)).disabledTime ≠ 0 ∧
      DISABLE_HOURS ≤ hoursSince ((⟨[], 1⟩ : V1.State)).disabledTime 1) := by
    rintro ⟨-, h2⟩
    rw [show ((⟨[], 1⟩ : V1.State)).disabledTime = 1 from rfl, hoursSince_same] at h2
    exact absurd h2 (by decide)
  have htm : (V1.tooManyFailures (⟨[], 1⟩ : V1.State) 1).2 = true := by
    unfold V1.tooManyFailures
    rw [if_neg hcond]
    decide
  rw [V1.applyFilter_tripped_run ⟨[], 1⟩ 1 (mkHeap [⟨"manual", "p", 1⟩]) 0 2 htm]
  refine ⟨by decide, by decide, by decide⟩

/-- C4 (amended): while the breaker is tripped and its window has not
expired, the delivered result is a freshly allocated direct candidate
whose failover is the original default chain — the request is forced to
try a direct connection first, regardless of the health of the chain's
candidates, but the proxy candidates remain reachable as its failover. -/
theorem c4_tripped_delivers_direct_first (st : V1.State) (now : Int) (h : Heap)
    (d : Nat) (fuel : Nat) (htrip : (V1.tooManyFailures st now).2 = true) :
    (V1.applyFilter true (some d) now fuel none st h).1.trace = [some h.length] ∧
    (V1.applyFilter true (some d) now fuel none st h).1.heap[h.length]?
      = some ⟨PROXY_DIRECT, "", 0, some d⟩ := by
  rw [V1.applyFilter_tripped_run st now h d fuel htrip]
  exact ⟨rfl, List.getElem?_concat_length _ _⟩

/-- Witness for `c4_tripped_delivers_direct_first`. -/
theorem c4_tripped_delivers_direct_first_witness :
    ((V1.tooManyFailures (⟨[], 1⟩ : V1.State) 1).2 = true) ∧
    (V1.applyFilter true (some 0) 1 2 none ⟨[], 1⟩
        (mkHeap [⟨"manual", "p", 1⟩])).1.trace = [some 1] := by
  have hcond : ¬ (((⟨[], 1⟩ : V1.State)).disabledTime ≠ 0 ∧
      DISABLE_HOURS ≤ hoursSince ((⟨[], 1⟩ : V1.State)).disabledTime 1) := by
    rintro ⟨-, h2⟩
    rw [show ((⟨[], 1⟩ : V1.State)).disabledTime = 1 from rfl, hoursSince_same] at h2
    exact absurd h2 (by decide)
  have htm : (V1.tooManyFailures (⟨[], 1⟩ : V1.State) 1).2 = true := by
    unfold V1.tooManyFailures
    rw [if_neg hcond]
    decide
  refine ⟨htm, ?_⟩
  have hmain := (c4_tripped_delivers_direct_first ⟨[], 1⟩ 1
    (mkHeap [⟨"manual", "p", 1⟩]) 0 2 htm).1
  rw [hmain]
  decide

/-- C5 (counterexample): in the revision at lines 211-233 the error record
stores only a time (`{ time: Date.now() }`) — there is no failure count to
increment.  Failing `manual h:1` a second time at time 7 (after a first
failure at time 5) leaves a record identical to the one a single first
failure at time 7 produces: `{time 7}`, a bare timestamp, not a record
whose count is one more than before. -/
theorem c5_counterexample :
    jsMapGet (V1.disableProxyInfo
        (V1.disableProxyInfo ⟨[], 0⟩ (some ⟨"manual", "h", 1, none⟩) 5)
        (some ⟨"manual", "h", 1, none⟩) 7).errors "manual:h:1"
      = jsMapGet (V1.disableProxyInfo ⟨[], 0⟩
          (some ⟨"manual", "h", 1, none⟩) 7).errors "manual:h:1" ∧
    jsMapGet (V1.disableProxyInfo ⟨[], 0⟩
        (some ⟨"manual", "h", 1, none⟩) 7).errors "manual:h:1" = some ⟨7⟩ := by
  have h57 : hoursSince 5 7 = 0 := by
    obtain ⟨q, hq, h1, h2⟩ := hoursSince_bounds 5 7
    rw [hq]; omega
  constructor <;>
    simp [V1.disableProxyInfo, V1.getProxyInfoKey, jsMapSet, jsMapGet, h57,
      DISABLE_HOURS, MAX_DISABLED_PI, PROXY_DIRECT,
      show toString (1 : Nat) = "1" from rfl]

/-- C5 (amended): in the revision that tracks failure counts (lines
569-590), for a keyed candidate `disableProxyInfo` inserts or updates the
key's error record so that afterwards its time is the current time and its
count is one more than before (1 if the record was absent), and a key-less
(direct) candidate leaves the registry unchanged; in the revision at lines
211-233 a keyed failure stores only the bare timestamp `{time now}` — no
failure count is maintained — and a key-less candidate leaves the registry
unchanged. -/
theorem c5_markFailed_updates_record (st : V2.State) (st1 : V1.State)
    (pinfo : Option PInfo) (now : Int) :
    (∀ k, V2.getProxyInfoKey pinfo = some k →
      jsMapGet (V2.disableProxyInfo st pinfo now).errors k =
        some ⟨(match jsMapGet st.errors k with
               | some e => e.count
               | none => 0) + 1, now⟩) ∧
    (V2.getProxyInfoKey pinfo = none →
      (V2.disableProxyInfo st pinfo now).errors = st.errors) ∧
    (∀ k, V1.getProxyInfoKey pinfo = some k →
      jsMapGet (V1.disableProxyInfo st1 pinfo now).errors k = some ⟨now⟩) ∧
    (V1.getProxyInfoKey pinfo = none →
      (V1.disableProxyInfo st1 pinfo now).errors = st1.errors) := by
  refine ⟨?_, ?_, ?_, ?_⟩
  · intro k hk
    unfold V2.disableProxyInfo
    rw [hk]
    dsimp only
    rw [apply_ite V2.State.errors]
    dsimp only
    rw [ite_self, jsMapGet_set_self]
    cases hg : jsMapGet st.errors k with
    | none => simp
    | some e => rfl
  · intro hk
    unfold V2.disableProxyInfo
    rw [hk]
  · intro k hk
    unfold V1.disableProxyInfo
    rw [hk]
    dsimp only
    exact jsMapGet_set_self _ _ _
  · intro hk
    unfold V1.disableProxyInfo
    rw [hk]

/-- Witness for `c5_markFailed_updates_record`: a first failure of
`manual h:1` at time 7 yields the record `{count 1, time 7}` in the
counting revision, and the bare `{time 7}` in the revision at lines
211-233. -/
theorem c5_markFailed_updates_record_witness :
    (V2.getProxyInfoKey (some ⟨"manual", "h", 1, none⟩) = some "manual:h:1") ∧
    (V1.getProxyInfoKey (some ⟨"manual", "h", 1, none⟩) = some "manual:h:1") ∧
    jsMapGet (V2.disableProxyInfo ⟨[], 0, 0⟩ (some ⟨"manual", "h", 1, none⟩) 7).errors
      "manual:h:1" = some ⟨1, 7⟩ ∧
    jsMapGet (V1.disableProxyInfo ⟨[], 0⟩ (some ⟨"manual", "h", 1, none⟩) 7).errors
      "manual:h:1" = some ⟨7⟩ := by
  have h := c5_markFailed_updates_record ⟨[], 0, 0⟩ ⟨[], 0⟩
    (some ⟨"manual", "h", 1, none⟩) 7
  refine ⟨by decide, by decide, ?_, h.2.2.1 "manual:h:1" (by decide)⟩
  simpa using h.1 "manual:h:1" (by decide)

/-- C6 (counterexample): with `trippedAt = 1`, at `now = 171000002` — only
47.5 hours plus 1 ms after the trip, strictly before `t + 48h = 172800001`
— `tooManyFailures` already resets the registry and `disabledTime` and
reports the breaker as cleared. -/
theorem c6_counterexample :
    (V1.tooManyFailures ⟨[("k", ⟨1⟩)], 1⟩ 171000002).2 = false ∧
    (V1.tooManyFailures ⟨[("k", ⟨1⟩)], 1⟩ 171000002).1 = V1.reset ∧
    (171000002 : Int) < 1 + 48 * 60 * 60 * 1000 := by
  have h48 : DISABLE_HOURS ≤ hoursSince (1 : Int) 171000002 :=
    (hoursSince_ge_48_of_past (by norm_num)).mpr (by norm_num)
  have hcond : ((⟨[("k", ⟨1⟩)], 1⟩ : V1.State)).disabledTime ≠ 0 ∧
      DISABLE_HOURS ≤
        hoursSince ((⟨[("k", ⟨1⟩)], 1⟩ : V1.State)).disabledTime 171000002 :=
    ⟨by decide, h48⟩
  refine ⟨?_, ?_, by norm_num⟩ <;>
    · unfold V1.tooManyFailures
      rw [if_pos hcond]
      try rfl

/-- C6 (amended): for a trip time `t ≠ 0` in the past, the breaker is still
reported tripped while `now - t ≤ 171000000` ms (47.5 hours), and it clears
(registry and trip time reset, verdict `false`) as soon as
`now - t > 171000000` ms — i.e. strictly after 47.5 hours, half an hour
before the nominal 48-hour mark, because `hoursSince` rounds to the nearest
whole hour. -/
theorem c6_breaker_clears_after_47_5_hours (st : V1.State) (now : Int)
    (h0 : st.disabledTime ≠ 0) (hle : st.disabledTime ≤ now) :
    (now - st.disabledTime ≤ 171000000 →
      V1.tooManyFailures st now = (st, true)) ∧
    (171000000 < now - st.disabledTime →
      V1.tooManyFailures st now = (V1.reset, false)) := by
  constructor
  · intro hwin
    have hno : ¬ (st.disabledTime ≠ 0 ∧
        DISABLE_HOURS ≤ hoursSince st.disabledTime now) := by
      rintro ⟨-, h2⟩
      exact absurd ((hoursSince_ge_48_of_past hle).mp h2) (by omega)
    unfold V1.tooManyFailures
    rw [if_neg hno]
    have hb : (st.disabledTime != 0) = true := by simpa using h0
    simp [hb]
  · intro hwin
    have hyes : st.disabledTime ≠ 0 ∧
        DISABLE_HOURS ≤ hoursSince st.disabledTime now :=
      ⟨h0, (hoursSince_ge_48_of_past hle).mpr hwin⟩
    unfold V1.tooManyFailures
    rw [if_pos hyes]
    rfl

/-- Witness for `c6_breaker_clears_after_47_5_hours`. -/
theorem c6_breaker_clears_after_47_5_hours_witness :
    ((⟨[], 5⟩ : V1.State).disabledTime ≠ 0 ∧
     (⟨[], 5⟩ : V1.State).disabledTime ≤ 171000006 ∧
     (171000000 : Int) < 171000006 - (⟨[], 5⟩ : V1.State).disabledTime) ∧
    V1.tooManyFailures ⟨[], 5⟩ 171000006 = (V1.reset, false) := by
  refine ⟨⟨by decide, by decide, by decide⟩, ?_⟩
  exact (c6_breaker_clears_after_47_5_hours ⟨[], 5⟩ 171000006
    (by decide) (by decide)).2 (by decide)

/-- C7 (counterexample): a fully qualifying success — a `stop` event on a
proxied channel with status 200 — leaves a prior direct-failure count of 3
at 3: nothing in `handleEvent` ever resets `directFailures` to 0. -/
theorem c7_counterexample :
    (V2.handleEvent ⟨[], 0, 3⟩
        ⟨"stop", true, some ⟨"manual", "h", 1, none⟩, 200⟩ 0).directFailures = 3 ∧
    (3 : Int) ≠ 0 := by
  exact ⟨by decide, by decide⟩

/-- C7 (amended): a qualifying success outcome (a `stop` event with status
in `[200, 400)`) leaves the direct-failure counter exactly as it was — the
revision at lines 599-617 only ever increments `directFailures` (on keyless
failures) and resets it on explicit `reset()`, never on success. -/
theorem c7_success_leaves_direct_counter (st : V2.State) (ev : V2.Event)
    (now : Int) (hstop : ev.etype = "stop") (h200 : 200 ≤ ev.statusCode)
    (h400 : ev.statusCode < 400) :
    (V2.handleEvent st ev now).directFailures = st.directFailures := by
  unfold V2.handleEvent
  split
  · rfl
  · rw [if_neg (by rw [hstop]; decide), if_pos (by rw [hstop]; decide),
      if_pos ⟨h200, h400⟩]
    unfold V2.enableProxyInfo
    cases hk : V2.getProxyInfoKey ev.proxyInfo with
    | none => rfl
    | some k => split <;> (try split) <;> rfl

/-- Witness for `c7_success_leaves_direct_counter`. -/
theorem c7_success_leaves_direct_counter_witness :
    ((⟨"stop", true, some ⟨"manual", "h", 1, none⟩, 250⟩ : V2.Event).etype
        = "stop" ∧
     (200 : Int) ≤ (⟨"stop", true, some ⟨"manual", "h", 1, none⟩, 250⟩
        : V2.Event).statusCode ∧
     (⟨"stop", true, some ⟨"manual", "h", 1, none⟩, 250⟩
        : V2.Event).statusCode < 400) ∧
    (V2.handleEvent ⟨[], 0, 7⟩
        ⟨"stop", true, some ⟨"manual", "h", 1, none⟩, 250⟩ 0).directFailures = 7 := by
  refine ⟨⟨rfl, by decide, by decide⟩, ?_⟩
  rw [c7_success_leaves_direct_counter ⟨[], 0, 7⟩
    ⟨"stop", true, some ⟨"manual", "h", 1, none⟩, 250⟩ 0 rfl (by decide) (by decide)]

theorem tooManyFailures_still_tripped (st : V1.State) (now : Int)
    (h0 : st.disabledTime ≠ 0) (hle : st.disabledTime ≤ now)
    (hwin : now - st.disabledTime ≤ 171000000) :
    (V1.tooManyFailures st now).2 = true := by
  have hno : ¬ (st.disabledTime ≠ 0 ∧
      DISABLE_HOURS ≤ hoursSince st.disabledTime now) := by
    rintro ⟨-, h2⟩
    exact absurd ((hoursSince_ge_48_of_past hle).mp h2) (by omega)
  unfold V1.tooManyFailures
  rw [if_neg hno]
  simpa using h0

/-- C9: `enableProxyInfo` (markSucceeded) is a pure registry deletion for
the candidate's key: afterwards the key is absent, every other key's record
is unchanged, and `disabledTime` is untouched — so while the 48-hour window
of a trip has not yet elapsed, `tooManyFailures` still reports the breaker
tripped after any number of successes, even with an empty registry. -/
theorem c9_markSucceeded_frame (st : V1.State) (pinfo : Option PInfo)
    (k : String) (hk : V1.getProxyInfoKey pinfo = some k) :
    (V1.enableProxyInfo st pinfo).disabledTime = st.disabledTime ∧
    jsMapGet (V1.enableProxyInfo st pinfo).errors k = none ∧
    (∀ k2, k2 ≠ k →
      jsMapGet (V1.enableProxyInfo st pinfo).errors k2 = jsMapGet st.errors k2) ∧
    (∀ now, st.disabledTime ≠ 0 → st.disabledTime ≤ now →
      now - st.disabledTime ≤ 171000000 →
      (V1.tooManyFailures (V1.enableProxyInfo st pinfo) now).2 = true) := by
  simp only [V1.enableProxyInfo, hk]
  by_cases hhas : jsMapHas st.errors k = true
  · rw [if_pos hhas]
    exact ⟨rfl, jsMapGet_delete_self _ _,
      fun k2 hne => jsMapGet_delete_ne _ _ _ hne,
      fun now h0 hle hwin => tooManyFailures_still_tripped _ now h0 hle hwin⟩
  · rw [if_neg hhas]
    exact ⟨rfl, jsMapGet_eq_none_of_has_false _ _ (by simpa using hhas),
      fun k2 _ => rfl,
      fun now h0 hle hwin => tooManyFailures_still_tripped _ now h0 hle hwin⟩

/-- Witness for `c9_markSucceeded_frame`. -/
theorem c9_markSucceeded_frame_witness :
    (V1.getProxyInfoKey (some ⟨"manual", "h", 1, none⟩) = some "manual:h:1") ∧
    (V1.enableProxyInfo ⟨[("manual:h:1", ⟨1⟩)], 5⟩
        (some ⟨"manual", "h", 1, none⟩)).disabledTime = 5 ∧
    jsMapGet (V1.enableProxyInfo ⟨[("manual:h:1", ⟨1⟩)], 5⟩
        (some ⟨"manual", "h", 1, none⟩)).errors "manual:h:1" = none := by
  have h := c9_markSucceeded_frame ⟨[("manual:h:1", ⟨1⟩)], 5⟩
    (some ⟨"manual", "h", 1, none⟩) "manual:h:1" (by decide)
  exact ⟨by decide, h.1, h.2.1⟩

/-- C10 (counterexample): `hoursSince` is not symmetric at half-hour ties —
for an absolute difference of exactly 47.5 hours (`171000000` ms), a past
timestamp yields 47 hours while a future one yields 48, because
`Math.round` sends half-integers towards `+∞` before the absolute value is
taken.  Consequently the `≥ 48` expiry test at a 47.5-hour absolute
difference passes for a future record but fails for a past one. -/
theorem c10_counterexample :
    hoursSince 171000000 0 = 48 ∧ hoursSince 0 171000000 = 47 := by
  constructor
  · obtain ⟨q, hq, h1, h2⟩ := hoursSince_bounds 171000000 0
    rw [hq]; omega
  · obtain ⟨q, hq, h1, h2⟩ := hoursSince_bounds 0 171000000
    rw [hq]; omega

/-- C10 (amended): away from exact half-hour ties
(`(a - b) % 3600000 ≠ 1800000`) `hoursSince` is symmetric; and the `≥ 48`
expiry threshold is asymmetric around 47.5 hours: for a past timestamp it
requires an elapsed time strictly greater than `171000000` ms, while for a
future timestamp a lead of exactly `171000000` ms already satisfies it. -/
theorem c10_hoursSince_near_symmetry (a b : Int) :
    ((a - b) % 3600000 ≠ 1800000 → hoursSince a b = hoursSince b a) ∧
    (a ≤ b → (DISABLE_HOURS ≤ hoursSince a b ↔ 171000000 < b - a)) ∧
    (b ≤ a → (DISABLE_HOURS ≤ hoursSince a b ↔ 171000000 ≤ a - b)) := by
  refine ⟨?_, fun h => hoursSince_ge_48_of_past h,
    fun h => hoursSince_ge_48_of_future h⟩
  intro hmod
  obtain ⟨q, hq, h1, h2⟩ := hoursSince_bounds a b
  obtain ⟨r, hr, h3, h4⟩ := hoursSince_bounds b a
  rw [hq, hr]
  omega

/-- Witness for `c10_hoursSince_near_symmetry`. -/
theorem c10_hoursSince_near_symmetry_witness :
    (((3600000 : Int) - 0) % 3600000 ≠ 1800000) ∧
    hoursSince 3600000 0 = hoursSince 0 3600000 := by
  refine ⟨by decide, (c10_hoursSince_near_symmetry 3600000 0).1 (by decide)⟩
